import Mathlib

/-!
# Verification of the Create2D/Tween position engine

A shallow embedding of the tween engine (`src/AbstractTween.ts`, `src/Tween.ts`,
`src/Timeline.ts` and the unnamed Tween/Timeline variants) in Lean 4, together
with proofs relating the natural-language specification to the code.

Modelling conventions:
* JS numbers used for times/positions are modelled as `ℚ` (the code performs
  only ring operations, comparisons, truncating division `| 0` and division, so
  rationals are exact on the inputs of interest); `NaN` propagation in property
  interpolation is modelled explicitly via `Option ℚ`.
* Target property values are modelled by `JSVal` (numbers, `NaN`, booleans,
  `undefined`); JS strict equality `===` and `ToNumber` coercion are modelled
  on that fragment.
* Action callbacks (`funct`) are external user code; the engine only observes
  them through their effect on the tween's `position` field (the out-of-band
  drift check in `_runActionsRange` reads nothing else), so a callback is
  modelled by `eff : Option ℚ` — `some q` sets the player's `position` to `q`,
  `none` leaves it alone.  Re-entrant calls back into `setPosition` are outside
  the model.
* Plugins are not installed anywhere in the claims' scenarios; the
  `if (plugins)` branches are modelled with `plugins = null` (skipped).
* Side effects (event dispatch, action firing, target property writes) are
  returned as explicit lists in the result structures.
-/

/-- JS values appearing as tweened target properties: numbers, `NaN`,
booleans and `undefined`. -/
inductive JSVal : Type
  | num (q : ℚ)
  | nan
  | boolv (b : Bool)
  | undef
deriving Repr, DecidableEq

namespace JSVal

/-- JS `typeof v === "number"` (`NaN` is a number). -/
def isNumber : JSVal → Bool
  | num _ => true
  | nan => true
  | _ => false

/-- JS strict equality `===` restricted to the modelled fragment:
`NaN` is not equal to anything (including itself); values of distinct
types are never equal. -/
def strictEq : JSVal → JSVal → Bool
  | nan, _ => false
  | _, nan => false
  | num a, num b => a == b
  | boolv a, boolv b => a == b
  | undef, undef => true
  | _, _ => false

/-- JS `ToNumber` coercion on the modelled fragment, with `none` playing the
role of `NaN` (`Number(undefined)` is `NaN`). -/
def toNum : JSVal → Option ℚ
  | num q => some q
  | nan => none
  | boolv b => some (if b then 1 else 0)
  | undef => none

/-- Repack a possibly-`NaN` numeric result as a value. -/
def ofNum : Option ℚ → JSVal
  | some q => num q
  | none => nan

end JSVal

/-- JS `x | 0` applied to a non-huge number: truncation toward zero. -/
def jsTrunc (q : ℚ) : ℤ :=
  if q < 0 then ⌈q⌉ else ⌊q⌋

/-- Association-list lookup, modelling JS property access `o[n]`
(`none` = `undefined`). -/
def propGet (props : List (String × JSVal)) (n : String) : Option JSVal :=
  match props with
  | [] => none
  | (m, v) :: rest => if m = n then some v else propGet rest n

/-- Lookup in the label table `{[label: string]: number}`. -/
def labelGet (labels : List (String × ℚ)) (n : String) : Option ℚ :=
  match labels with
  | [] => none
  | (m, v) :: rest => if m = n then some v else labelGet rest n

/-- A `TweenStep` chain node (`AbstractTween.ts`): start offset `t`,
duration `d`, ending property snapshot `props`, easing function, passive
flag.  The `prev` link is represented by the position in the step list. -/
structure TweenStep : Type where
  t : ℚ
  d : ℚ
  props : List (String × JSVal)
  ease : ℚ → ℚ
  passive : Bool

/-- A `TweenAction` list node: scheduled time `t`, an identifier standing
for the `(scope, funct, params)` triple, and the callback's effect on the
owning tween's `position` (see the modelling conventions above). -/
structure TweenAction : Type where
  id : ℕ
  t : ℚ
  eff : Option ℚ
deriving Repr, DecidableEq

/-- The state of a leaf `Tween` (fields of `AbstractTween`/`Tween` that the
position engine reads or writes).  `headProps` is the `props` snapshot of the
`_stepHead` sentinel (origin values); `steps` are the real chain nodes after
the sentinel, in order; `actions` is the `_actionHead` list in order. -/
structure TweenState : Type where
  duration : ℚ
  loop : ℤ
  reversed : Bool
  bounce : Bool
  position : ℚ
  rawPosition : ℚ
  paused : Bool
  passive : Bool
  stepPosition : ℚ
  targetPresent : Bool
  headProps : List (String × JSVal)
  steps : List TweenStep
  actions : List TweenAction
  labels : List (String × ℚ)

/-- Effective reversal flag for a given loop pass:
`!this.reversed !== !(this.bounce && loop % 2)` — boolean XOR; Lean's `Int`
`%` (emod) agrees with JS `%` on truthiness of `loop % 2`. -/
def revFor (reversed bounce : Bool) (loop : ℤ) : Bool :=
  xor reversed (bounce && loop % 2 != 0)

/-! ## Leaf property update (`Tween._updatePosition` / `Tween._updateTargetProps`) -/

/-- The body of the `proploop` in `Tween._updateTargetProps` for one property:
`v1 = p1[n]`; if `v0 !== v1 && typeof v0 === "number"` then
`v = v0 + (v1 - v0) * ratio` (JS arithmetic coerces `v1`, producing `NaN`
when it is `undefined`), else `v = ratio >= 1 ? v1 : v0`. -/
def tweenValue (v0 : JSVal) (v1 : JSVal) (ratio : ℚ) : JSVal :=
  if !(JSVal.strictEq v0 v1) && v0.isNumber then
    JSVal.ofNum (do
      let a ← v0.toNum
      let b ← v1.toNum
      pure (a + (b - a) * ratio))
  else
    if ratio ≥ 1 then v1 else v0

/-- `Tween._updateTargetProps(step, ratio, end)` with no plugins installed:
sets `this.passive`; unless the step is passive, applies the step's ease to
the ratio and writes one value per property of the previous step's snapshot.
Returns the new state and the list of `this.target[n] = v` writes. -/
def updateTargetProps (s : TweenState) (prevProps : List (String × JSVal))
    (step : TweenStep) (ratio0 : ℚ) : TweenState × List (String × JSVal) :=
  let s := { s with passive := step.passive }
  if step.passive then (s, [])
  else
    let ratio := step.ease ratio0
    (s, prevProps.map (fun p =>
      let v1 := (propGet step.props p.1).getD JSVal.undef
      (p.1, tweenValue p.2 v1 ratio)))

/-- Step-cursor search of `Tween._updatePosition`: starting from
`_stepHead.next`, advance while the next step's `t <= position`; returns the
index of the active step in `steps` (which is nonempty at the call site). -/
def findStepIdx (steps : List TweenStep) (t : ℚ) (i : ℕ) : ℕ :=
  match steps with
  | [] => i
  | step :: rest =>
    if step.t ≤ t then findStepIdx rest t (i + 1) else i

/-- `props` of the step before index `idx`: the `_stepHead` sentinel's
snapshot for the first step, else the preceding chain node's. -/
def prevPropsAt (s : TweenState) (idx : ℕ) : List (String × JSVal) :=
  match idx with
  | 0 => s.headProps
  | n + 1 => ((s.steps.get? n).map TweenStep.props).getD []

/-- `Tween._updatePosition(jump, end)`: locate the active step, compute
`ratio = end ? (d == 0 ? 1 : t / d) : (t - step.t) / step.d`, update target
properties, and set `_stepPosition`.  (`jump` is unused by the source body;
division by zero only arises for an active zero-duration step, not exercised
by any claim.)  Returns the new state and the property writes. -/
def updatePosition (s : TweenState) (_jump : Bool) (end_ : Bool) :
    TweenState × List (String × JSVal) :=
  let t := s.position
  let d := s.duration
  match s.steps with
  | [] => ({ s with stepPosition := 0 }, [])
  | first :: rest =>
    if s.targetPresent then
      let idx := findStepIdx rest t 0
      let step := (s.steps.get? idx).getD first
      let ratio := if end_ then (if d = 0 then 1 else t / d)
                   else (t - step.t) / step.d
      let (s, writes) := updateTargetProps s (prevPropsAt s idx) step ratio
      ({ s with stepPosition := t - step.t }, writes)
    else
      -- no target: the cursor never advances past `_stepHead.next`
      ({ s with stepPosition := t - first.t }, [])

/-! ## `AbstractTween.calculatePosition` -/

/-- `AbstractTween.calculatePosition(rawPosition)`: pure normalized-position
computation (duplicated from `setPosition` in the source). -/
def calculatePosition (s : TweenState) (rawPosition : ℚ) : ℚ :=
  let d := s.duration
  let loopCount := s.loop
  if d = 0 then 0
  else
    let (loop, t) :=
      if loopCount ≠ -1 ∧ rawPosition ≥ loopCount * d + d then
        (loopCount, d)
      else if rawPosition < 0 then
        ((0 : ℤ), (0 : ℚ))
      else
        let loop := jsTrunc (rawPosition / d)
        (loop, rawPosition - loop * d)
    if revFor s.reversed s.bounce loop then d - t else t

/-! ## Action execution (`Tween._runActionsRange`, `Tween._runActions`,
`Timeline._runActions` — the `_runActions` algorithm is textually identical in
the `Tween` and `Timeline` sources, differing only in the virtual
`_runActionsRange`, so it is embedded once, parameterized by the range
runner). -/

/-- Apply a fired action's callback: `action.funct.apply(action.scope,
action.params)` observed through its effect on the player's `position`. -/
def applyEff (s : TweenState) (a : TweenAction) : TweenState :=
  match a.eff with
  | none => s
  | some q => { s with position := q }

/-- The firing condition of `Tween._runActionsRange`:
`pos === endPos || (pos > sPos && pos < ePos) || (includeStart && pos === startPos)`. -/
def inRangeB (startPos endPos sPos ePos : ℚ) (includeStart : Bool)
    (a : TweenAction) : Bool :=
  a.t == endPos || (sPos < a.t && a.t < ePos) || (includeStart && a.t == startPos)

/-- Does firing action `a` move the position away from the captured value
`t`?  (`if (t !== this.position) return true;`) -/
def actionChanges (t : ℚ) (a : TweenAction) : Bool :=
  match a.eff with
  | none => false
  | some q => q != t

/-- The `while (action)` walk of `Tween._runActionsRange`: `t` is the position
captured before the loop; returns (aborted?, fired actions in order, state). -/
def runRangeWalk (t startPos endPos sPos ePos : ℚ) (includeStart : Bool) :
    TweenState → List TweenAction → Bool × List TweenAction × TweenState
  | s, [] => (false, [], s)
  | s, a :: rest =>
    if inRangeB startPos endPos sPos ePos includeStart a then
      let s' := applyEff s a
      if s'.position ≠ t then (true, [a], s')
      else
        let r := runRangeWalk t startPos endPos sPos ePos includeStart s' rest
        (r.1, a :: r.2.1, r.2.2)
    else runRangeWalk t startPos endPos sPos ePos includeStart s rest

/-- `Tween._runActionsRange(startPos, endPos, jump, includeStart)`: walks the
action list head→tail, or tail→head when `startPos > endPos` (`jump` is
accepted but unused by the source body). -/
def Tween.runActionsRange (s : TweenState) (startPos endPos : ℚ)
    (_jump includeStart : Bool) : Bool × List TweenAction × TweenState :=
  let rev := startPos > endPos
  let acts := if rev then s.actions.reverse else s.actions
  let sPos := if rev then endPos else startPos
  let ePos := if rev then startPos else endPos
  runRangeWalk s.position startPos endPos sPos ePos includeStart s acts

/-- The body of one `do { ... } while` iteration of `_runActions`: compute
the (possibly reversed) normalized range for the current `loop` pass and run
it, except on a bounce-induced time collapse ("bounced onto the same
time/frame, don't re-execute end actions"). -/
def runLoopBody {σ α : Type} (d : ℚ) (reversed bounce : Bool)
    (range : σ → ℚ → ℚ → Bool → Bool → Bool × List α × σ)
    (loop0 loop1 : ℤ) (t0 t1 : ℚ) (dir : Bool) (jump : Bool)
    (s : σ) (loop : ℤ) (includeStart : Bool) : Bool × List α × σ :=
  let rev := revFor reversed bounce loop
  let start0 := if loop = loop0 then t0 else if dir then 0 else d
  let end0 := if loop = loop1 then t1 else if dir then d else 0
  let start := if rev then d - start0 else start0
  let end_ := if rev then d - end0 else end0
  if bounce && loop ≠ loop0 && start == end_ then (false, [], s)
  else range s start end_ jump (includeStart || (loop ≠ loop0 && !bounce))

/-- The loop-continuation test of `_runActions`:
`(dir && ++loop <= loop1) || (!dir && --loop >= loop1)`. -/
def loopCont (dir : Bool) (loop loop1 : ℤ) : Bool :=
  (dir && decide (loop + 1 ≤ loop1)) || (!dir && decide (loop - 1 ≥ loop1))

/-- The `do { ... } while` traversal of `_runActions`, counting down on
`fuel` (the caller supplies `|loop1 - loop0| + 1`, enough for the whole
traversal); aborts as soon as an iteration's range run returns true. -/
def runLoopIter {σ α : Type} (d : ℚ) (reversed bounce : Bool)
    (range : σ → ℚ → ℚ → Bool → Bool → Bool × List α × σ)
    (loop0 loop1 : ℤ) (t0 t1 : ℚ) (dir : Bool) (jump : Bool) :
    ℕ → σ → ℤ → Bool → Bool × List α × σ
  | 0, s, _, _ => (false, [], s)
  | fuel + 1, s, loop, includeStart =>
    let step := runLoopBody d reversed bounce range loop0 loop1 t0 t1 dir jump
      s loop includeStart
    if step.1 then (true, step.2.1, step.2.2)
    else if loopCont dir loop loop1 then
      let next := runLoopIter d reversed bounce range loop0 loop1 t0 t1
        dir jump fuel step.2.2 (if dir then loop + 1 else loop - 1) false
      (next.1, step.2.1 ++ next.2.1, next.2.2)
    else (false, step.2.1, step.2.2)

/-- `_runActions(startRawPos, endRawPos, jump, includeStart)` (shared
algorithm of `Tween._runActions` and `Timeline._runActions`): expand the raw
range into per-loop normalized ranges and run each through `range`.
`guardEmpty` models the leading `if (!this._actionHead) return;`
(`!this._actionHead && !this.tweens` for the Timeline variant, which is
always false since an array is truthy). -/
def runActionsCore {σ α : Type} (d : ℚ) (loopCount : ℤ) (reversed0 bounce0 : Bool)
    (range : σ → ℚ → ℚ → Bool → Bool → Bool × List α × σ) (guardEmpty : Bool)
    (s : σ) (startRawPos endRawPos : ℚ) (jump includeStart : Bool) :
    Bool × List α × σ :=
  if guardEmpty then (false, [], s)
  else
    -- deal with 0 length tweens / general position folding:
    let loop0a := if d = 0 then 0 else jsTrunc (startRawPos / d)
    let loop1a := if d = 0 then 0 else jsTrunc (endRawPos / d)
    let t0a := if d = 0 then 0 else startRawPos - loop0a * d
    let t1a := if d = 0 then 0 else endRawPos - loop1a * d
    let reversed := if d = 0 then false else reversed0
    let bounce := if d = 0 then false else bounce0
    -- catch positions that are past the end:
    let t1 := if loopCount ≠ -1 ∧ loop1a > loopCount then d else t1a
    let loop1 := if loopCount ≠ -1 ∧ loop1a > loopCount then loopCount else loop1a
    let t0b := if loopCount ≠ -1 ∧ loop0a > loopCount then d else t0a
    let loop0b := if loopCount ≠ -1 ∧ loop0a > loopCount then loopCount else loop0a
    if jump then range s t1 t1 jump includeStart
    else if loop0b = loop1 ∧ t0b = t1 ∧ ¬includeStart then (false, [], s)
    else
      -- correct the -1 value for first advance, important with useTicks:
      let t0 := if loop0b = -1 then 0 else t0b
      let loop0 := if loop0b = -1 then 0 else loop0b
      let dir := startRawPos ≤ endRawPos
      runLoopIter d reversed bounce range loop0 loop1 t0 t1 dir jump
        ((loop1 - loop0).natAbs + 1) s loop0 includeStart

/-- `Tween._runActions`: the shared algorithm with the leaf tween's own
duration/loop/direction fields and `Tween._runActionsRange`. -/
def Tween.runActions (s : TweenState) (startRawPos endRawPos : ℚ)
    (jump includeStart : Bool) : Bool × List TweenAction × TweenState :=
  runActionsCore s.duration s.loop s.reversed s.bounce
    (fun st a b j i => Tween.runActionsRange st a b j i) s.actions.isEmpty
    s startRawPos endRawPos jump includeStart

/-! ## `AbstractTween.setPosition` (leaf `Tween` instance) -/

/-- Result of a `setPosition` call on a leaf tween.  `ret` is the JS return
value (`some end` on the two early `return end;` paths, `none` for the
`undefined` fall-through); `ended` records the internal `end` flag (also
observable through the "complete" event and the pausing side effect);
`events` are the dispatched event types in order; `fired` the executed
actions in order; `writes` the target property assignments in order. -/
structure SPResult : Type where
  state : TweenState
  ret : Option Bool
  ended : Bool
  events : List String
  fired : List TweenAction
  writes : List (String × JSVal)

/-- The clamped raw position that `setPosition` stores: input clamped to
`≥ 0`, then to `loopCount*d + d` when past the final end of a finite-loop
tween (the `d = 0` path stores the `≥ 0` clamp unchanged). -/
def normRaw (d : ℚ) (loopCount : ℤ) (raw : ℚ) : ℚ :=
  let raw := if raw < 0 then 0 else raw
  if d = 0 then raw
  else if decide (loopCount ≠ -1) && decide (raw ≥ loopCount * d + d) then
    loopCount * d + d
  else raw

/-- An early `return end;` of `setPosition`: state untouched, no side
effects. -/
def earlyReturn (s : TweenState) (end_ : Bool) : SPResult :=
  { state := s, ret := some end_, ended := end_, events := [], fired := [],
    writes := [] }

/-- The common tail of `setPosition` (source lines 224–243): commit
`position`/`rawPosition`, run the property update, pause on end, run actions
unless suppressed, dispatch "change" (and "complete" on end), and fall
through (JS return value `undefined`, i.e. `ret := none`). -/
def Tween.commitPosition (s : TweenState) (t rawPosition prevRawPos : ℚ)
    (end_ ignoreActions jump : Bool) : SPResult :=
  -- set this in advance in case an action modifies position:
  let s₁ := { s with position := t, rawPosition := rawPosition }
  let ud := updatePosition s₁ jump end_
  let s₃ := if end_ then { ud.1 with paused := true } else ud.1
  let ra :=
    if !ignoreActions then
      Tween.runActions s₃ prevRawPos rawPosition jump
        (!jump && prevRawPos == -1)
    else (false, [], s₃)
  { state := ra.2.2, ret := none, ended := end_,
    events := "change" :: (if end_ then ["complete"] else []),
    fired := ra.2.1, writes := ud.2 }

/-- `AbstractTween.setPosition(rawPosition, ignoreActions, jump)` for a leaf
`Tween` (the virtual `_updatePosition`/`_runActions` resolved to the `Tween`
bodies; the optional MovieClip `callback` parameter is omitted — no claim
passes one).  `this.paused = true` on end is modelled on the `paused`
field; the Registry side of the leaf `paused` setter is modelled separately
(see the Registry section). -/
def Tween.setPosition (s : TweenState) (rawPosition0 : ℚ)
    (ignoreActions jump : Bool) : SPResult :=
  let d := s.duration
  let loopCount := s.loop
  let prevRawPos := s.rawPosition
  -- normalize position:
  let rawPosition := if rawPosition0 < 0 then 0 else rawPosition0
  if d = 0 then
    -- deal with 0 length tweens: end = true; nothing else if already at 0
    if prevRawPos ≠ -1 then earlyReturn s true
    else Tween.commitPosition s 0 rawPosition prevRawPos true ignoreActions jump
  else
    let loop := jsTrunc (rawPosition / d)
    let t := rawPosition - loop * d
    let end_ := decide (loopCount ≠ -1) && decide (rawPosition ≥ loopCount * d + d)
    let t := if end_ then d else t
    let loop := if end_ then loopCount else loop
    let rawPosition := if end_ then loopCount * d + d else rawPosition
    if rawPosition = prevRawPos then
      -- no need to update
      earlyReturn s end_
    else
      -- current loop is reversed:
      let t := if revFor s.reversed s.bounce loop then d - t else t
      Tween.commitPosition s t rawPosition prevRawPos end_ ignoreActions jump

/-! ## Labels (`currentLabel`, `resolve`, `_goto`, `gotoAndPlay/Stop`) -/

/-- The `for` loop of the `currentLabel` getter in the case where the label
map has a numeric `length` property: `for (; i < l; i++) { if (pos <
labels[i]) break; }`.  `labels[i]` looks up the key `String(i)`; a comparison
with `undefined` is false, so a missing key does not break the loop. -/
def currentLabelLoop (labels : List (String × ℚ)) (pos l : ℚ) :
    ℕ → ℕ → ℕ
  | 0, i => i
  | fuel + 1, i =>
    if (i : ℚ) < l then
      match labelGet labels (toString i) with
      | some v => if pos < v then i else currentLabelLoop labels pos l fuel (i + 1)
      | none => currentLabelLoop labels pos l fuel (i + 1)
    else i

/-- The `currentLabel` getter (`AbstractTween.ts` lines 151–162).  The source
reads `labels.length` on the raw label *map* `this._labels` (not the sorted
`labels` list), so `l` is `undefined` unless a label is literally named
"length"; `i < undefined` is false, the loop exits at `i = 0` and the getter
returns `null`.  `Object.keys` is modelled as insertion order (faithful for
non-integer-like label names). -/
def currentLabel (s : TweenState) : Option String :=
  let labels := s.labels
  let pos := s.position
  match labelGet labels "length" with
  | none => none
  | some l =>
    let fuel := if l ≤ 0 then 0 else (⌈l⌉.toNat + 1)
    let i := currentLabelLoop labels pos l fuel 0
    if i = 0 then none else (labels.map Prod.fst).get? (i - 1)

/-- `AbstractTween.resolve(positionOrLabel)`: numbers pass through, strings
are looked up in the label table (`undefined`, i.e. `none`, if absent). -/
def resolve (s : TweenState) (positionOrLabel : String ⊕ ℚ) : Option ℚ :=
  match positionOrLabel with
  | Sum.inr q => some q
  | Sum.inl lbl => labelGet s.labels lbl

/-- `AbstractTween._goto`: `if (pos != null) this.setPosition(pos, false,
true);` — an unresolved label is silently skipped. -/
def goto (s : TweenState) (positionOrLabel : String ⊕ ℚ) : SPResult :=
  match resolve s positionOrLabel with
  | some pos => Tween.setPosition s pos false true
  | none =>
    { state := s, ret := none, ended := false, events := [], fired := [],
      writes := [] }

/-- `AbstractTween.gotoAndPlay`: unpause, then `_goto`. -/
def gotoAndPlay (s : TweenState) (positionOrLabel : String ⊕ ℚ) : SPResult :=
  goto { s with paused := false } positionOrLabel

/-- `AbstractTween.gotoAndStop`: pause, then `_goto`. -/
def gotoAndStop (s : TweenState) (positionOrLabel : String ⊕ ℚ) : SPResult :=
  goto { s with paused := true } positionOrLabel

/-! ## Composite player (`Timeline`) -/

/-- Observable event of a timeline tick: a child tween's property-update
pass (`tweens[i].setPosition(t, true, jump)`, with the child's target writes)
or one child action firing during the timeline's action pass. -/
inductive TLEv : Type
  | update (child : ℕ) (writes : List (String × JSVal))
  | action (child : ℕ) (a : TweenAction)

/-- Is this trace event a property update? -/
def TLEv.isUpdate : TLEv → Bool
  | update _ _ => true
  | action _ _ => false

/-- Is this trace event an action firing? -/
def TLEv.isAction : TLEv → Bool
  | update _ _ => false
  | action _ _ => true

/-- State of a `Timeline`: the shared position-engine fields plus the child
tween array (`this.tweens`). A timeline has no steps or actions of its own
(the constructor never appends any). -/
structure TimelineState : Type where
  duration : ℚ
  loop : ℤ
  reversed : Bool
  bounce : Bool
  position : ℚ
  rawPosition : ℚ
  paused : Bool
  children : List TweenState

/-- `Timeline._updatePosition(jump, end)`: forward the committed normalized
position to every child with `ignoreActions = true` ("actions will run after
all the tweens update").  Returns the updated children and the trace of this
phase (one `update` event per child carrying its property writes, followed by
any actions the child fired during its own `setPosition` — none, as proved
below, but recorded faithfully). -/
def Timeline.updatePosition (children : List TweenState) (t : ℚ) (jump : Bool) :
    List TweenState × List TLEv :=
  let rec go (i : ℕ) : List TweenState → List TweenState × List TLEv
    | [] => ([], [])
    | c :: rest =>
      let r := Tween.setPosition c t true jump
      let next := go (i + 1) rest
      (r.state :: next.1,
       (TLEv.update i r.writes :: r.fired.map (TLEv.action i)) ++ next.2)
  go 0 children

/-- `Timeline._runActionsRange(startPos, endPos, jump, includeStart)`: run
every child's `_runActions` over the per-loop range, aborting if an action
changed this timeline's own `position` out-of-band (children cannot do that
within the model — re-entrant `setPosition` calls on the parent are outside
it — but the check is transcribed faithfully). -/
def Timeline.runActionsRange (tl : TimelineState) (startPos endPos : ℚ)
    (jump includeStart : Bool) : Bool × List TLEv × TimelineState :=
  let t := tl.position
  let rec go (i : ℕ) (pos : ℚ) : List TweenState → Bool × List TLEv × List TweenState
    | [] => (false, [], [])
    | c :: rest =>
      let r := Tween.runActions c startPos endPos jump includeStart
      if t ≠ pos then (true, r.2.1.map (TLEv.action i), r.2.2 :: rest)
      else
        let next := go (i + 1) pos rest
        (next.1, r.2.1.map (TLEv.action i) ++ next.2.1, r.2.2 :: next.2.2)
  let res := go 0 tl.position tl.children
  (res.1, res.2.1, { tl with children := res.2.2 })

/-- `Timeline._runActions`: the shared `_runActions` algorithm over the
timeline's own duration/loop/direction fields, with the timeline's range
runner.  The leading guard `!this._actionHead && !this.tweens` is always
false (an array is truthy), so `guardEmpty := false`. -/
def Timeline.runActions (tl : TimelineState) (startRawPos endRawPos : ℚ)
    (jump includeStart : Bool) : Bool × List TLEv × TimelineState :=
  runActionsCore tl.duration tl.loop tl.reversed tl.bounce
    (fun st a b j i => Timeline.runActionsRange st a b j i) false
    tl startRawPos endRawPos jump includeStart

/-- Result of a `setPosition` call on a `Timeline`: as for the leaf, with
the side effects of one tick gathered in `trace`. -/
structure TLResult : Type where
  state : TimelineState
  ret : Option Bool
  ended : Bool
  events : List String
  trace : List TLEv

/-- The common tail of `setPosition` for a `Timeline` (the virtual
`_updatePosition`/`_runActions` resolved to the Timeline bodies; the
`Timeline` `paused` setter just stores the flag). -/
def Timeline.commitPosition (tl : TimelineState) (t rawPosition prevRawPos : ℚ)
    (end_ ignoreActions jump : Bool) : TLResult :=
  let tl₁ := { tl with position := t, rawPosition := rawPosition }
  let ud := Timeline.updatePosition tl₁.children tl₁.position jump
  let tl₂ := { tl₁ with children := ud.1 }
  let tl₃ := if end_ then { tl₂ with paused := true } else tl₂
  let ra :=
    if !ignoreActions then
      Timeline.runActions tl₃ prevRawPos rawPosition jump
        (!jump && prevRawPos == -1)
    else (false, [], tl₃)
  { state := ra.2.2, ret := none, ended := end_,
    events := "change" :: (if end_ then ["complete"] else []),
    trace := ud.2 ++ ra.2.1 }

/-- `AbstractTween.setPosition` on a `Timeline` instance (the same shared
method body as the leaf embedding, with the Timeline subclass overrides). -/
def Timeline.setPosition (tl : TimelineState) (rawPosition0 : ℚ)
    (ignoreActions jump : Bool) : TLResult :=
  let d := tl.duration
  let loopCount := tl.loop
  let prevRawPos := tl.rawPosition
  let rawPosition := if rawPosition0 < 0 then 0 else rawPosition0
  if d = 0 then
    if prevRawPos ≠ -1 then
      { state := tl, ret := some true, ended := true, events := [], trace := [] }
    else Timeline.commitPosition tl 0 rawPosition prevRawPos true ignoreActions jump
  else
    let loop := jsTrunc (rawPosition / d)
    let t := rawPosition - loop * d
    let end_ := decide (loopCount ≠ -1) && decide (rawPosition ≥ loopCount * d + d)
    let t := if end_ then d else t
    let loop := if end_ then loopCount else loop
    let rawPosition := if end_ then loopCount * d + d else rawPosition
    if rawPosition = prevRawPos then
      { state := tl, ret := some end_, ended := end_, events := [], trace := [] }
    else
      let t := if revFor tl.reversed tl.bounce loop then d - t else t
      Timeline.commitPosition tl t rawPosition prevRawPos end_ ignoreActions jump

/-! ## Registry (`Tween._register` / `Tween._delist` / the `paused` setter) -/

/-- A tween as seen by the global registry: its `_paused`/`_status`/
`_lastTick` fields and its intrusive `_next`/`_prev` links (object references
modelled by numeric ids), plus the identity of its `target` (if any). -/
structure RegTween : Type where
  id : ℕ
  paused : Bool
  status : ℤ
  lastTick : ℕ
  next : Option ℕ
  prev : Option ℕ
  target : Option ℕ
deriving Repr, DecidableEq

/-- The global registry: `Tween._tweenHead`/`_tweenTail`, `Tween._inTick`,
`Tween._inited`, the tween objects (one list entry per object, keyed by id)
and each target's `tweenjs_count` property (`none` = not yet defined). -/
structure GState : Type where
  tweens : List RegTween
  counts : List (ℕ × ℤ)
  head : Option ℕ
  tail : Option ℕ
  inTick : ℕ
  inited : Bool
deriving Repr, DecidableEq

/-- Find a tween object by id (object references are unique, so the first
match is the object). -/
def getTween (ts : List RegTween) (tid : ℕ) : Option RegTween :=
  match ts with
  | [] => none
  | t :: rest => if t.id = tid then some t else getTween rest tid

/-- Mutate the tween object with the given id. -/
def updTween (ts : List RegTween) (tid : ℕ) (f : RegTween → RegTween) :
    List RegTween :=
  match ts with
  | [] => []
  | t :: rest => if t.id = tid then f t :: rest else t :: updTween rest tid f

/-- Read a target's `tweenjs_count`. -/
def getCount (cs : List (ℕ × ℤ)) (tgt : ℕ) : Option ℤ :=
  match cs with
  | [] => none
  | c :: rest => if c.1 = tgt then some c.2 else getCount rest tgt

/-- Write a target's `tweenjs_count`. -/
def setCount (cs : List (ℕ × ℤ)) (tgt : ℕ) (v : ℤ) : List (ℕ × ℤ) :=
  match cs with
  | [] => [(tgt, v)]
  | c :: rest => if c.1 = tgt then (tgt, v) :: rest else c :: setCount rest tgt v

/-- `Tween._delist(tween)`: unlink the node from the intrusive list. -/
def Tween.delist (g : GState) (tid : ℕ) : GState :=
  match getTween g.tweens tid with
  | none => g
  | some t =>
    let g := match t.next with
      | some nid => { g with tweens := updTween g.tweens nid (fun n => { n with prev := t.prev }) }
      | none => { g with tail := t.prev }        -- was tail
    let g := match t.prev with
      | some pid => { g with tweens := updTween g.tweens pid (fun p => { p with next := t.next }) }
      | none => { g with head := t.next }        -- was head
    { g with tweens := updTween g.tweens tid (fun x => { x with next := none, prev := none }) }

/-- `Tween._register(tween, paused)`: registers on an unpause transition,
unregisters on a pause transition, and otherwise only reassigns `_paused`
to its current value.  (`Ticker.addEventListener` on first init is external;
only the `_inited` flag is modelled.) -/
def Tween.register (g : GState) (tid : ℕ) (paused : Bool) : GState :=
  match getTween g.tweens tid with
  | none => g
  | some t =>
    let g :=
      if !paused && t.paused then
        -- register
        let g :=
          match t.target with
          | some tgt =>
            let c := match getCount g.counts tgt with
              | some c => if c ≠ 0 then c + 1 else 1
              | none => 1
            { g with counts := setCount g.counts tgt c }
          | none => g
        let g :=
          match g.tail with
          | none => { g with head := some tid, tail := some tid }
          | some tailId =>
            { g with
              tweens := updTween
                (updTween g.tweens tailId (fun tl => { tl with next := some tid }))
                tid (fun x => { x with prev := some tailId }),
              tail := some tid }
        let g := { g with
          tweens := updTween g.tweens tid
            (fun x => { x with status := if g.inTick ≠ 0 then 1 else 0 }) }
        if !g.inited then { g with inited := true } else g
      else if paused && !t.paused then
        -- unregister
        let g :=
          match t.target with
          | some tgt =>
            let c := (getCount g.counts tgt).getD 0 - 1
            { g with counts := setCount g.counts tgt c }
          | none => g
        -- tick handles delist if we're in a tick stack and the tween
        -- hasn't advanced yet:
        let g := if g.inTick = 0 ∨ t.lastTick = g.inTick then Tween.delist g tid else g
        { g with tweens := updTween g.tweens tid (fun x => { x with status := -1 }) }
      else g
    { g with tweens := updTween g.tweens tid (fun x => { x with paused := paused }) }

/-- The leaf `Tween` `paused` setter: `Tween._register(this, paused);
this._paused = paused;`. -/
def Tween.setPaused (g : GState) (tid : ℕ) (paused : Bool) : GState :=
  let g := Tween.register g tid paused
  { g with tweens := updTween g.tweens tid (fun x => { x with paused := paused }) }

/-! # Helper lemmas -/

/-- Firing a callback can only modify the player's `position`. -/
theorem applyEff_static (s : TweenState) (a : TweenAction) :
    (applyEff s a).duration = s.duration ∧ (applyEff s a).loop = s.loop ∧
    (applyEff s a).rawPosition = s.rawPosition ∧ (applyEff s a).actions = s.actions := by
  cases h : a.eff <;> simp [applyEff, h]

/-- A projection unchanged by every callback is unchanged by the range walk. -/
theorem runRangeWalk_pres {β : Type} (f : TweenState → β)
    (hf : ∀ s a, f (applyEff s a) = f s)
    (t sp ep sP eP : ℚ) (inc : Bool) :
    ∀ (s : TweenState) (l : List TweenAction),
      f (runRangeWalk t sp ep sP eP inc s l).2.2 = f s := by
  intro s l
  induction l generalizing s with
  | nil => simp [runRangeWalk]
  | cons a rest ih =>
    simp only [runRangeWalk]
    split
    · split
      · exact hf s a
      · rw [ih (applyEff s a), hf]
    · exact ih s

/-- A projection unchanged by the range runner is unchanged by one loop
body. -/
theorem runLoopBody_pres {σ α β : Type} (f : σ → β)
    (range : σ → ℚ → ℚ → Bool → Bool → Bool × List α × σ)
    (hr : ∀ s a b j i, f (range s a b j i).2.2 = f s)
    (d : ℚ) (rv bn : Bool) (l0 l1 : ℤ) (t0 t1 : ℚ) (dir jump : Bool)
    (s : σ) (loop : ℤ) (inc : Bool) :
    f (runLoopBody d rv bn range l0 l1 t0 t1 dir jump s loop inc).2.2 = f s := by
  simp only [runLoopBody]
  repeat' split
  all_goals first | rfl | exact hr _ _ _ _ _

/-- A projection unchanged by the range runner is unchanged by the loop
traversal. -/
theorem runLoopIter_pres {σ α β : Type} (f : σ → β)
    (range : σ → ℚ → ℚ → Bool → Bool → Bool × List α × σ)
    (hr : ∀ s a b j i, f (range s a b j i).2.2 = f s)
    (d : ℚ) (rv bn : Bool) (l0 l1 : ℤ) (t0 t1 : ℚ) (dir jump : Bool) :
    ∀ (fuel : ℕ) (s : σ) (loop : ℤ) (inc : Bool),
      f (runLoopIter d rv bn range l0 l1 t0 t1 dir jump fuel s loop inc).2.2 = f s := by
  intro fuel
  induction fuel with
  | zero => intro s loop inc; simp [runLoopIter]
  | succ n ih =>
    intro s loop inc
    simp only [runLoopIter]
    split
    · exact runLoopBody_pres f range hr _ _ _ _ _ _ _ _ _ _ _ _
    · split
      · simp only [ih]
        exact runLoopBody_pres f range hr _ _ _ _ _ _ _ _ _ _ _ _
      · exact runLoopBody_pres f range hr _ _ _ _ _ _ _ _ _ _ _ _

/-- A projection unchanged by the range runner is unchanged by
`_runActions`. -/
theorem runActionsCore_pres {σ α β : Type} (f : σ → β)
    (range : σ → ℚ → ℚ → Bool → Bool → Bool × List α × σ)
    (hr : ∀ s a b j i, f (range s a b j i).2.2 = f s)
    (d : ℚ) (lc : ℤ) (rv bn : Bool) (g : Bool) (s : σ) (sr er : ℚ) (j inc : Bool) :
    f (runActionsCore d lc rv bn range g s sr er j inc).2.2 = f s := by
  simp only [runActionsCore]
  repeat' split
  all_goals
    first
    | rfl
    | exact hr _ _ _ _ _
    | exact runLoopIter_pres f range hr _ _ _ _ _ _ _ _ _ _ _ _ _

/-- `Tween._runActionsRange` preserves every projection unchanged by
callbacks. -/
theorem runActionsRange_pres {β : Type} (f : TweenState → β)
    (hf : ∀ s a, f (applyEff s a) = f s)
    (s : TweenState) (a b : ℚ) (j i : Bool) :
    f (Tween.runActionsRange s a b j i).2.2 = f s := by
  simp only [Tween.runActionsRange]
  exact runRangeWalk_pres f hf _ _ _ _ _ _ _ _

/-- `Tween._runActions` preserves every projection unchanged by callbacks. -/
theorem runActions_pres {β : Type} (f : TweenState → β)
    (hf : ∀ s a, f (applyEff s a) = f s)
    (s : TweenState) (sr er : ℚ) (j i : Bool) :
    f (Tween.runActions s sr er j i).2.2 = f s := by
  simp only [Tween.runActions]
  exact runActionsCore_pres f _
    (fun s a b j i => runActionsRange_pres f hf s a b j i) _ _ _ _ _ _ _ _ _ _

/-- `Tween._updatePosition` only writes `passive` and `_stepPosition`. -/
theorem updatePosition_pres (s : TweenState) (j e : Bool) :
    (updatePosition s j e).1.duration = s.duration ∧
    (updatePosition s j e).1.loop = s.loop ∧
    (updatePosition s j e).1.rawPosition = s.rawPosition ∧
    (updatePosition s j e).1.position = s.position ∧
    (updatePosition s j e).1.actions = s.actions ∧
    (updatePosition s j e).1.reversed = s.reversed ∧
    (updatePosition s j e).1.bounce = s.bounce ∧
    (updatePosition s j e).1.paused = s.paused := by
  simp only [updatePosition, updateTargetProps]
  repeat' split
  all_goals simp

/-- The `end` flag computed by `setPosition` for a call with raw argument
`raw`: true for zero-duration tweens, else exactly the finite-loop
past-the-end test on the `≥ 0` clamp. -/
def endFlag (d : ℚ) (lc : ℤ) (raw : ℚ) : Bool :=
  if d = 0 then true
  else
    decide (lc ≠ -1) && decide ((if raw < 0 then 0 else raw) ≥ lc * d + d)

/-- The committed raw position of the `setPosition` tail is its argument,
and the static fields survive the whole tail. -/
theorem commitPosition_static (s : TweenState) (t r p : ℚ) (e ia j : Bool) :
    (Tween.commitPosition s t r p e ia j).state.rawPosition = r ∧
    (Tween.commitPosition s t r p e ia j).state.duration = s.duration ∧
    (Tween.commitPosition s t r p e ia j).state.loop = s.loop ∧
    (Tween.commitPosition s t r p e ia j).state.actions = s.actions := by
  have hup := updatePosition_pres { s with position := t, rawPosition := r } j e
  simp only [Tween.commitPosition]
  split
  · refine ⟨?_, ?_, ?_, ?_⟩
    · rw [runActions_pres (fun st => st.rawPosition)
        (fun s a => (applyEff_static s a).2.2.1)]
      split <;> simp [hup.2.2.1]
    · rw [runActions_pres (fun st => st.duration)
        (fun s a => (applyEff_static s a).1)]
      split <;> simp [hup.1]
    · rw [runActions_pres (fun st => st.loop)
        (fun s a => (applyEff_static s a).2.1)]
      split <;> simp [hup.2.1]
    · rw [runActions_pres (fun st => st.actions)
        (fun s a => (applyEff_static s a).2.2.2)]
      split <;> simp [hup.2.2.2.2.1]
  · refine ⟨?_, ?_, ?_, ?_⟩ <;> (split <;>
      simp [hup.1, hup.2.1, hup.2.2.1, hup.2.2.2.2.1])

/-- `setPosition` never changes `duration`, `loop` or the action list. -/
theorem setPosition_static (s : TweenState) (raw : ℚ) (ia j : Bool) :
    (Tween.setPosition s raw ia j).state.duration = s.duration ∧
    (Tween.setPosition s raw ia j).state.loop = s.loop ∧
    (Tween.setPosition s raw ia j).state.actions = s.actions := by
  simp only [Tween.setPosition]
  repeat' split
  all_goals
    first
    | exact ⟨rfl, rfl, rfl⟩
    | exact ⟨(commitPosition_static _ _ _ _ _ _ _).2.1,
        (commitPosition_static _ _ _ _ _ _ _).2.2.1,
        (commitPosition_static _ _ _ _ _ _ _).2.2.2⟩

/-- On a nonzero-duration tween, the raw position stored by `setPosition`
is `normRaw` of the call argument. -/
theorem setPosition_rawPosition (s : TweenState) (raw : ℚ) (ia j : Bool)
    (hd : s.duration ≠ 0) :
    (Tween.setPosition s raw ia j).state.rawPosition
      = normRaw s.duration s.loop raw := by
  simp only [Tween.setPosition, normRaw, if_neg hd]
  repeat' split
  all_goals simp_all [earlyReturn, (commitPosition_static _ _ _ _ _ _ _).1]

/-- On a nonzero-duration tween whose stored raw position already equals the
clamp of the argument, `setPosition` takes the "no need to update" early
return: the state is untouched and no side effects are produced. -/
theorem setPosition_shortCircuit (s : TweenState) (raw : ℚ) (ia j : Bool)
    (hd : s.duration ≠ 0)
    (h : normRaw s.duration s.loop raw = s.rawPosition) :
    Tween.setPosition s raw ia j
      = earlyReturn s (endFlag s.duration s.loop raw) := by
  simp only [normRaw, if_neg hd] at h
  simp only [Tween.setPosition, endFlag, if_neg hd]
  repeat' split
  all_goals simp_all
  all_goals
    (rename_i hnlt himp hneq hrev
     rw [if_neg (fun hand => absurd hand.2 (not_le.mpr (himp hand.1)))] at h
     exact absurd h hneq)

/-- A walk over callbacks that never touch `position` leaves the state
unchanged. -/
theorem runRangeWalk_nochange (t sp ep sP eP : ℚ) (inc : Bool) :
    ∀ (s : TweenState) (l : List TweenAction), (∀ a ∈ l, a.eff = none) →
      (runRangeWalk t sp ep sP eP inc s l).2.2 = s := by
  intro s l
  induction l generalizing s with
  | nil => intro _; simp [runRangeWalk]
  | cons a rest ih =>
    intro h
    have ha : a.eff = none := h a (by simp)
    have heff : applyEff s a = s := by simp [applyEff, ha]
    simp only [runRangeWalk, heff]
    split
    · split
      · rfl
      · exact ih s (fun x hx => h x (by simp [hx]))
    · exact ih s (fun x hx => h x (by simp [hx]))

/-- `Tween._runActionsRange` leaves the state unchanged when no scheduled
callback touches `position`. -/
theorem runActionsRange_nochange (s : TweenState) (a b : ℚ) (j i : Bool)
    (h : ∀ x ∈ s.actions, x.eff = none) :
    (Tween.runActionsRange s a b j i).2.2 = s := by
  simp only [Tween.runActionsRange]
  split <;> exact runRangeWalk_nochange _ _ _ _ _ _ s _
    (by intro x hx; exact h x (by simp_all))

/-- If the range runner fixes every state satisfying `P`, so does one loop
body. -/
theorem runLoopBody_fix {σ α : Type} (P : σ → Prop)
    (range : σ → ℚ → ℚ → Bool → Bool → Bool × List α × σ)
    (hr : ∀ st a b j i, P st → (range st a b j i).2.2 = st)
    (d : ℚ) (rv bn : Bool) (l0 l1 : ℤ) (t0 t1 : ℚ) (dir jump : Bool)
    (st : σ) (loop : ℤ) (inc : Bool) (hP : P st) :
    (runLoopBody d rv bn range l0 l1 t0 t1 dir jump st loop inc).2.2 = st := by
  simp only [runLoopBody]
  repeat' split
  all_goals first | rfl | exact hr _ _ _ _ _ hP

/-- If the range runner fixes every state satisfying `P`, so does the loop
traversal. -/
theorem runLoopIter_fix {σ α : Type} (P : σ → Prop)
    (range : σ → ℚ → ℚ → Bool → Bool → Bool × List α × σ)
    (hr : ∀ st a b j i, P st → (range st a b j i).2.2 = st)
    (d : ℚ) (rv bn : Bool) (l0 l1 : ℤ) (t0 t1 : ℚ) (dir jump : Bool) :
    ∀ (fuel : ℕ) (st : σ) (loop : ℤ) (inc : Bool), P st →
      (runLoopIter d rv bn range l0 l1 t0 t1 dir jump fuel st loop inc).2.2 = st := by
  intro fuel
  induction fuel with
  | zero => intro st loop inc _; simp [runLoopIter]
  | succ n ih =>
    intro st loop inc hP
    have hb := runLoopBody_fix P range hr d rv bn l0 l1 t0 t1 dir jump st loop inc hP
    simp only [runLoopIter, hb]
    split
    · rfl
    · split
      · exact ih _ _ _ hP
      · rfl

/-- If the range runner fixes every state satisfying `P`, so does
`_runActions`. -/
theorem runActionsCore_fix {σ α : Type} (P : σ → Prop)
    (range : σ → ℚ → ℚ → Bool → Bool → Bool × List α × σ)
    (hr : ∀ st a b j i, P st → (range st a b j i).2.2 = st)
    (d : ℚ) (lc : ℤ) (rv bn : Bool) (g : Bool) (st : σ) (sr er : ℚ)
    (jm inc : Bool) (hP : P st) :
    (runActionsCore d lc rv bn range g st sr er jm inc).2.2 = st := by
  simp only [runActionsCore]
  repeat' split
  all_goals
    first
    | rfl
    | exact hr _ _ _ _ _ hP
    | exact runLoopIter_fix P range hr _ _ _ _ _ _ _ _ _ _ _ _ _ hP

/-- `Tween._runActions` leaves the state unchanged when no scheduled
callback touches `position`. -/
theorem runActions_nochange (s : TweenState) (sr er : ℚ) (j i : Bool)
    (h : ∀ x ∈ s.actions, x.eff = none) :
    (Tween.runActions s sr er j i).2.2 = s := by
  simp only [Tween.runActions]
  exact runActionsCore_fix (fun st => ∀ x ∈ st.actions, x.eff = none) _
    (fun st a b j i hP => runActionsRange_nochange st a b j i hP)
    _ _ _ _ _ _ _ _ _ _ h

/-- The committed normalized position survives the `setPosition` tail when
no callback touches `position`. -/
theorem commitPosition_position (s : TweenState) (t r p : ℚ) (e ia j : Bool)
    (hacts : ∀ x ∈ s.actions, x.eff = none) :
    (Tween.commitPosition s t r p e ia j).state.position = t := by
  have hup := updatePosition_pres { s with position := t, rawPosition := r } j e
  simp only [Tween.commitPosition]
  have hup2 := (updatePosition_pres { s with position := t, rawPosition := r } j e).2.2.2.2.1
  split
  · next hia =>
    set s₃ := if e = true then
        { (updatePosition { s with position := t, rawPosition := r } j e).1 with paused := true }
      else (updatePosition { s with position := t, rawPosition := r } j e).1 with hs3
    have hacts3 : ∀ x ∈ s₃.actions, x.eff = none := by
      intro x hx
      apply hacts
      have : s₃.actions = s.actions := by
        rw [hs3]; split <;> simp [hup2]
      rwa [this] at hx
    rw [runActions_nochange _ _ _ _ _ hacts3]
    rw [hs3]
    split <;> simp [hup.2.2.2.1]
  · split <;> simp [hup.2.2.2.1]

/-- The `ended` flag reported by the `setPosition` tail is the `end`
argument. -/
theorem commitPosition_ended (s : TweenState) (t r p : ℚ) (e ia j : Bool) :
    (Tween.commitPosition s t r p e ia j).ended = e := rfl

/-! # Claim theorems -/

/-- C1.  For a tween with duration `d > 0` and finite loop count
`L = s.loop ≥ 0`, a `setPosition` call with raw argument `≥ (L+1)·d` that
actually advances the stored raw position (`s.rawPosition ≠ (L+1)·d`)
ends the tween: `end = true`, the stored `rawPosition` is clamped to
`(L+1)·d`, and — when the effective direction for loop `L` is forward and
no callback moves the position — the committed normalized `position` is
`d`.  (Concrete instance: see the witness, with `duration = 1000`,
`loopCount = 2`, `setPosition(3500)` giving `end = true`,
`position = 1000`, `rawPosition = 3000`.) -/
theorem c1_loop_clamp (s : TweenState) (raw : ℚ) (ia j : Bool)
    (hd : 0 < s.duration) (hL : 0 ≤ s.loop)
    (hraw : ((s.loop : ℚ) + 1) * s.duration ≤ raw)
    (hprev : s.rawPosition ≠ ((s.loop : ℚ) + 1) * s.duration)
    (hfwd : revFor s.reversed s.bounce s.loop = false)
    (hacts : ∀ a ∈ s.actions, a.eff = none) :
    (Tween.setPosition s raw ia j).ended = true ∧
    (Tween.setPosition s raw ia j).state.rawPosition
      = ((s.loop : ℚ) + 1) * s.duration ∧
    (Tween.setPosition s raw ia j).state.position = s.duration := by
  have hd0 : s.duration ≠ 0 := ne_of_gt hd
  have hLq : (0 : ℚ) ≤ (s.loop : ℚ) := by exact_mod_cast hL
  have hpos : (0 : ℚ) < ((s.loop : ℚ) + 1) * s.duration := by
    apply mul_pos _ hd
    linarith
  have hrnn : ¬ raw < 0 := not_lt.mpr (le_trans (le_of_lt hpos) hraw)
  have hlc : s.loop ≠ -1 := by omega
  have hsum : (s.loop : ℚ) * s.duration + s.duration
      = ((s.loop : ℚ) + 1) * s.duration := by ring
  have hendb : (decide (s.loop ≠ -1)
      && decide ((if raw < 0 then 0 else raw) ≥ (s.loop : ℚ) * s.duration + s.duration))
      = true := by
    simp only [if_neg hrnn, Bool.and_eq_true, decide_eq_true_eq]
    exact ⟨hlc, by rw [hsum]; exact hraw⟩
  have hne : ¬((s.loop : ℚ) * s.duration + s.duration = s.rawPosition) := by
    intro hh
    exact hprev (by rw [← hh, hsum])
  simp only [Tween.setPosition, if_neg hd0, hendb, if_true, if_neg hne, hfwd,
    Bool.false_eq_true, if_false]
  refine ⟨commitPosition_ended _ _ _ _ _ _ _, ?_, ?_⟩
  · rw [(commitPosition_static _ _ _ _ _ _ _).1, hsum]
  · exact commitPosition_position _ _ _ _ _ _ _ hacts

/-- Concrete tween for the C1 instance: `duration = 1000`, `loop = 2`,
fresh (`rawPosition = -1`), no steps, actions or labels. -/
def tweenC1 : TweenState :=
  { duration := 1000, loop := 2, reversed := false, bounce := false,
    position := 0, rawPosition := -1, paused := false, passive := false,
    stepPosition := 0, targetPresent := true, headProps := [],
    steps := [], actions := [], labels := [] }

/-- C1 witness: with `duration = 1000` and `loopCount = 2`,
`setPosition(3500)` yields `end = true`, `rawPosition = 3000` and
`position = 1000`. -/
theorem c1_loop_clamp_witness :
    (Tween.setPosition tweenC1 3500 false false).ended = true ∧
    (Tween.setPosition tweenC1 3500 false false).state.rawPosition = 3000 ∧
    (Tween.setPosition tweenC1 3500 false false).state.position = 1000 := by
  have h := c1_loop_clamp tweenC1 3500 false false (by norm_num [tweenC1])
    (by norm_num [tweenC1]) (by norm_num [tweenC1]) (by norm_num [tweenC1])
    (by simp [tweenC1, revFor]) (by simp [tweenC1])
  refine ⟨h.1, ?_, ?_⟩
  · rw [h.2.1]; norm_num [tweenC1]
  · rw [h.2.2]; norm_num [tweenC1]

/-- The loop index that `calculatePosition` folds a raw position to. -/
def calcLoop (d : ℚ) (lc : ℤ) (raw : ℚ) : ℤ :=
  if lc ≠ -1 ∧ raw ≥ lc * d + d then lc
  else if raw < 0 then 0
  else jsTrunc (raw / d)

/-- The in-loop time that `calculatePosition` folds a raw position to. -/
def calcT (d : ℚ) (lc : ℤ) (raw : ℚ) : ℚ :=
  if lc ≠ -1 ∧ raw ≥ lc * d + d then d
  else if raw < 0 then 0
  else raw - jsTrunc (raw / d) * d

/-- Concrete tween for the C2 instance: `duration = 1000`,
`bounce = true`, `reversed = false`, infinite looping (`loop = -1`). -/
def tweenC2 : TweenState :=
  { tweenC1 with loop := -1, bounce := true }

/-- C2.  `calculatePosition` folds a raw position into `[0, duration]`
(for a positive-duration tween the folded time `calcT` lies in that
interval, hence so does the result) and reverses it — returns
`duration - t` instead of `t` — exactly when
`reversed XOR (bounce ∧ loop index odd)` holds for the folded loop index.
Concretely, with `duration = 1000`, `bounce = true`, `reversed = false`,
`loop = -1`: `calculatePosition(1500) = 500` and
`calculatePosition(1200) = 800`. -/
theorem c2_calculate_position :
    (∀ (s : TweenState) (raw : ℚ), 0 < s.duration →
      (calculatePosition s raw =
        if revFor s.reversed s.bounce (calcLoop s.duration s.loop raw) then
          s.duration - calcT s.duration s.loop raw
        else calcT s.duration s.loop raw) ∧
      0 ≤ calcT s.duration s.loop raw ∧
      calcT s.duration s.loop raw ≤ s.duration ∧
      0 ≤ calculatePosition s raw ∧
      calculatePosition s raw ≤ s.duration) ∧
    calculatePosition tweenC2 1500 = 500 ∧
    calculatePosition tweenC2 1200 = 800 := by
  refine ⟨?_, ?_, ?_⟩
  · intro s raw hd
    have hd0 : s.duration ≠ 0 := ne_of_gt hd
    have hshape : calculatePosition s raw =
        if revFor s.reversed s.bounce (calcLoop s.duration s.loop raw) then
          s.duration - calcT s.duration s.loop raw
        else calcT s.duration s.loop raw := by
      simp only [calculatePosition, calcLoop, calcT, if_neg hd0]
      repeat' split
      all_goals simp_all
    have hT : 0 ≤ calcT s.duration s.loop raw ∧
        calcT s.duration s.loop raw ≤ s.duration := by
      simp only [calcT]
      split
      · exact ⟨le_of_lt hd, le_refl _⟩
      · split
        · exact ⟨le_refl _, le_of_lt hd⟩
        · next hnc hnneg =>
          have hr0 : (0 : ℚ) ≤ raw := not_lt.mp hnneg
          have htr : jsTrunc (raw / s.duration) = ⌊raw / s.duration⌋ := by
            rw [jsTrunc, if_neg (not_lt.mpr (div_nonneg hr0 (le_of_lt hd)))]
          rw [htr]
          exact ⟨Int.sub_floor_div_mul_nonneg raw hd,
            le_of_lt (Int.sub_floor_div_mul_lt raw hd)⟩
    refine ⟨hshape, hT.1, hT.2, ?_, ?_⟩ <;> rw [hshape] <;> split
    · linarith [hT.2]
    · exact hT.1
    · linarith [hT.1]
    · exact hT.2
  · norm_num [calculatePosition, tweenC2, tweenC1, jsTrunc, revFor]
  · norm_num [calculatePosition, tweenC2, tweenC1, jsTrunc, revFor]

/-- C2 witness: the general clause of `c2_calculate_position` instantiated
at the concrete bounce tween and `raw = 1500`. -/
theorem c2_calculate_position_witness :
    (calculatePosition tweenC2 1500 =
      if revFor tweenC2.reversed tweenC2.bounce
          (calcLoop tweenC2.duration tweenC2.loop 1500) then
        tweenC2.duration - calcT tweenC2.duration tweenC2.loop 1500
      else calcT tweenC2.duration tweenC2.loop 1500) ∧
    0 ≤ calcT tweenC2.duration tweenC2.loop 1500 ∧
    calcT tweenC2.duration tweenC2.loop 1500 ≤ tweenC2.duration ∧
    0 ≤ calculatePosition tweenC2 1500 ∧
    calculatePosition tweenC2 1500 ≤ tweenC2.duration :=
  c2_calculate_position.1 tweenC2 1500 (by norm_num [tweenC2, tweenC1])

/-- Concrete tween for the C3 instance: `duration = 1000`, `loop = 0`,
already advanced to raw position 900, with one action scheduled at
`t = 1000` whose callback does not move the position. -/
def tweenC3 : TweenState :=
  { tweenC1 with
    loop := 0
    position := 900
    rawPosition := 900
    actions := [{ id := 0, t := 1000, eff := none }] }

/-- C3.  An action scheduled at `t = 1000` on a tween of `duration = 1000`
(`loop = 0`) fires exactly once when `setPosition` advances the raw
position from 900 to 1000; and on every tween with positive duration, a
second `setPosition` call with the same raw argument is a complete no-op:
the state is unchanged and it dispatches no events, fires no actions and
writes no target properties. -/
theorem c3_noop_and_boundary_fire :
    (Tween.setPosition tweenC3 1000 false false).fired
        = [{ id := 0, t := 1000, eff := none }] ∧
    (∀ (s : TweenState) (raw : ℚ) (ia j ia' j' : Bool), 0 < s.duration →
      (Tween.setPosition (Tween.setPosition s raw ia j).state raw ia' j').state
          = (Tween.setPosition s raw ia j).state ∧
      (Tween.setPosition (Tween.setPosition s raw ia j).state raw ia' j').events = [] ∧
      (Tween.setPosition (Tween.setPosition s raw ia j).state raw ia' j').fired = [] ∧
      (Tween.setPosition (Tween.setPosition s raw ia j).state raw ia' j').writes = []) := by
  constructor
  · norm_num [Tween.setPosition, Tween.commitPosition, tweenC3, tweenC1,
      Tween.runActions, runActionsCore, runLoopIter, runLoopBody,
      Tween.runActionsRange, runRangeWalk, updatePosition, jsTrunc, revFor,
      applyEff, inRangeB, loopCont, normRaw, endFlag]
  · intro s raw ia j ia' j' hd
    have hd0 : s.duration ≠ 0 := ne_of_gt hd
    have hstat := setPosition_static s raw ia j
    have hraw := setPosition_rawPosition s raw ia j hd0
    have hd0' : (Tween.setPosition s raw ia j).state.duration ≠ 0 := by
      rw [hstat.1]; exact hd0
    have hsc := setPosition_shortCircuit (Tween.setPosition s raw ia j).state raw
      ia' j' hd0' (by rw [hstat.1, hstat.2.1, hraw])
    rw [hsc]
    exact ⟨rfl, rfl, rfl, rfl⟩

/-- C3 witness: the no-op clause of `c3_noop_and_boundary_fire`
instantiated at the concrete boundary scenario — a second
`setPosition(1000)` after the advance from 900 to 1000 changes nothing and
has no side effects. -/
theorem c3_noop_and_boundary_fire_witness :
    (Tween.setPosition (Tween.setPosition tweenC3 1000 false false).state
        1000 false false).state
      = (Tween.setPosition tweenC3 1000 false false).state ∧
    (Tween.setPosition (Tween.setPosition tweenC3 1000 false false).state
        1000 false false).events = [] ∧
    (Tween.setPosition (Tween.setPosition tweenC3 1000 false false).state
        1000 false false).fired = [] ∧
    (Tween.setPosition (Tween.setPosition tweenC3 1000 false false).state
        1000 false false).writes = [] :=
  c3_noop_and_boundary_fire.2 tweenC3 1000 false false false false
    (by norm_num [tweenC3, tweenC1])

/-- The single step of the C4 chain: `to({x:100}, 100)` with linear easing
(`t = 0`, `d = 100`, ending snapshot `{x: 100}`). -/
def stepC4 : TweenStep :=
  { t := 0, d := 100, props := [("x", JSVal.num 100)],
    ease := fun r => r, passive := false }

/-- The C4 leaf tween: origin snapshot `{x: 0}` on the step-head sentinel,
one step to `{x: 100}` over duration 100. -/
def tweenC4 : TweenState :=
  { tweenC1 with
    duration := 100
    headProps := [("x", JSVal.num 0)]
    steps := [stepC4] }

/-- C4 counterexample.  The claim's "otherwise" clause fails on the code:
with origin value `1` (numeric) and destination value `false`
(non-numeric, so "origin and destination numeric and differ" is false) at
`ratio = 1/2 < 1`, the claim requires the origin value `1` to be held, but
`_updateTargetProps` takes the interpolation branch (the code tests
`typeof v0` only) and writes `1 + (false - 1) * 0.5 = 0.5`. -/
theorem c4_interp_counterexample :
    (updateTargetProps tweenC4 [("a", JSVal.num 1)]
        { t := 0, d := 100, props := [("a", JSVal.boolv false)],
          ease := fun r => r, passive := false } (1/2)).2
      = [("a", JSVal.num (1/2))] ∧
    JSVal.num (1/2) ≠ JSVal.num 1 ∧
    JSVal.num (1/2) ≠ JSVal.boolv false := by
  refine ⟨?_, by simp, by simp⟩
  norm_num [updateTargetProps, tweenValue, JSVal.strictEq, JSVal.isNumber,
    JSVal.toNum, JSVal.ofNum, propGet]

/-- C4 (amended).  For a leaf tween built as `to({x:100}, 100)` on a target
with `x = 0` and linear easing, the update writes `x = 50` at position 50,
`x = 0` at position 0 and `x = 100` at position 100 (also when `end` is
true).  In general, a property whose origin value is numeric and strictly
different from the destination value is written as
`v0 + (ToNumber(v1) - v0) * ease(ratio)` — in particular the claimed
interpolation when both are numeric — and a property whose origin is
non-numeric or strictly equal to the destination snaps to the destination
once `ratio ≥ 1` and holds the origin below. -/
theorem c4_step_interpolation :
    (updatePosition { tweenC4 with position := 50 } false false).2
        = [("x", JSVal.num 50)] ∧
    (updatePosition { tweenC4 with position := 0 } false false).2
        = [("x", JSVal.num 0)] ∧
    (updatePosition { tweenC4 with position := 100 } false false).2
        = [("x", JSVal.num 100)] ∧
    (updatePosition { tweenC4 with position := 100 } false true).2
        = [("x", JSVal.num 100)] ∧
    (∀ (a b r : ℚ), a ≠ b →
      tweenValue (JSVal.num a) (JSVal.num b) r = JSVal.num (a + (b - a) * r)) ∧
    (∀ (v0 v1 : JSVal) (r : ℚ), v0.isNumber = false ∨ v0 = v1 →
      tweenValue v0 v1 r = if r ≥ 1 then v1 else v0) := by
  refine ⟨?_, ?_, ?_, ?_, ?_, ?_⟩
  · norm_num [updatePosition, updateTargetProps, tweenValue, tweenC4, tweenC1,
      stepC4, findStepIdx, prevPropsAt, JSVal.strictEq, JSVal.isNumber,
      JSVal.toNum, JSVal.ofNum, propGet]
  · norm_num [updatePosition, updateTargetProps, tweenValue, tweenC4, tweenC1,
      stepC4, findStepIdx, prevPropsAt, JSVal.strictEq, JSVal.isNumber,
      JSVal.toNum, JSVal.ofNum, propGet]
  · norm_num [updatePosition, updateTargetProps, tweenValue, tweenC4, tweenC1,
      stepC4, findStepIdx, prevPropsAt, JSVal.strictEq, JSVal.isNumber,
      JSVal.toNum, JSVal.ofNum, propGet]
  · norm_num [updatePosition, updateTargetProps, tweenValue, tweenC4, tweenC1,
      stepC4, findStepIdx, prevPropsAt, JSVal.strictEq, JSVal.isNumber,
      JSVal.toNum, JSVal.ofNum, propGet]
  · intro a b r hab
    simp [tweenValue, JSVal.strictEq, JSVal.isNumber, JSVal.toNum, JSVal.ofNum,
      hab]
  · intro v0 v1 r h
    rcases h with h | h
    · cases v0 <;> simp_all [tweenValue, JSVal.isNumber]
    · subst h
      cases v0 <;>
        simp [tweenValue, JSVal.strictEq, JSVal.isNumber, JSVal.toNum,
          JSVal.ofNum]

/-- C4 witness: the numeric-interpolation clause of
`c4_step_interpolation` at `v0 = 0`, `v1 = 100`, `ratio = 1/2`. -/
theorem c4_step_interpolation_witness :
    tweenValue (JSVal.num 0) (JSVal.num 100) (1/2)
      = JSVal.num (0 + (100 - 0) * (1/2)) :=
  c4_step_interpolation.2.2.2.2.1 0 100 (1/2) (by norm_num)

/-- Tween for the C7 instance: labels "first" at 4 and "second" at 8,
current position 7. -/
def tweenC7 : TweenState :=
  { tweenC1 with
    position := 7
    labels := [("first", 4), ("second", 8)] }

/-- C7.  The `currentLabel` getter reads `length` on the raw label *map*
(`this._labels`), which has no such property, so the scan loop never runs
and the getter returns `null` — here evaluated on a tween with labels
"first" at 4 and "second" at 8 and position 7, where both the claim and the
getter's own doc comment require "first". -/
theorem c7_current_label_bug :
    currentLabel tweenC7 = none ∧ currentLabel tweenC7 ≠ some "first" := by
  have h : labelGet tweenC7.labels "length" = none := by
    simp only [tweenC7, tweenC1, labelGet]
    decide
  constructor
  · simp [currentLabel, h]
  · simp [currentLabel, h]

/-- The JS return value of the `setPosition` tail is `undefined`. -/
theorem commitPosition_ret (s : TweenState) (t r p : ℚ) (e ia j : Bool) :
    (Tween.commitPosition s t r p e ia j).ret = none := rfl

/-- The events dispatched by the `setPosition` tail. -/
theorem commitPosition_events (s : TweenState) (t r p : ℚ) (e ia j : Bool) :
    (Tween.commitPosition s t r p e ia j).events
      = "change" :: (if e then ["complete"] else []) := rfl

/-- C8 counterexample.  A call that performs a full position update
(duration 1000, fresh tween, `setPosition(500)`) does not return the end
flag: the method falls through and returns `undefined` (`none`), not the
boolean `false` required by the claim. -/
theorem c8_return_counterexample :
    (Tween.setPosition tweenC1 500 false false).ret = none ∧
    (Tween.setPosition tweenC1 500 false false).ended = false ∧
    (Tween.setPosition tweenC1 500 false false).ret ≠ some false := by
  have h1 : (Tween.setPosition tweenC1 500 false false).ret = none := by
    norm_num [Tween.setPosition, Tween.commitPosition, tweenC1, jsTrunc,
      normRaw, endFlag]
  refine ⟨h1, ?_, by rw [h1]; simp⟩
  norm_num [Tween.setPosition, Tween.commitPosition, tweenC1, jsTrunc,
    normRaw, endFlag]

/-- C8 (amended).  `setPosition` computes the end flag
(`endFlag`, true exactly when the tween reaches its final end under the
clamping rule) and reports it through the `end` state (pausing /
"complete"), but only the two short-circuit paths — recognizable by
dispatching no events — `return end;`; a call that performs a full
position update always dispatches "change" and returns `undefined`. -/
theorem c8_return_amended (s : TweenState) (raw : ℚ) (ia j : Bool) :
    (Tween.setPosition s raw ia j).ended = endFlag s.duration s.loop raw ∧
    ((Tween.setPosition s raw ia j).events = [] →
      (Tween.setPosition s raw ia j).ret
        = some (endFlag s.duration s.loop raw)) ∧
    ((Tween.setPosition s raw ia j).events ≠ [] →
      (Tween.setPosition s raw ia j).ret = none) := by
  simp only [Tween.setPosition, endFlag]
  repeat' split
  all_goals
    simp_all [earlyReturn, commitPosition_ended, commitPosition_ret,
      commitPosition_events]

/-- C8 witness: the amended theorem at the concrete full-update call
`setPosition(500)` on a fresh duration-1000 tween. -/
theorem c8_return_amended_witness :
    (Tween.setPosition tweenC1 500 false false).ended
        = endFlag tweenC1.duration tweenC1.loop 500 ∧
    ((Tween.setPosition tweenC1 500 false false).events = [] →
      (Tween.setPosition tweenC1 500 false false).ret
        = some (endFlag tweenC1.duration tweenC1.loop 500)) ∧
    ((Tween.setPosition tweenC1 500 false false).events ≠ [] →
      (Tween.setPosition tweenC1 500 false false).ret = none) :=
  c8_return_amended tweenC1 500 false false

/-- C9.  `gotoAndPlay`/`gotoAndStop` with a label that is not in the label
table resolve it to `null` and silently skip the jump: the whole result is
the input state with only `paused` reassigned — in particular `position`
and `rawPosition` are unchanged — and no event, action or write occurs
(and, the embedding being total, no exception). -/
theorem c9_goto_unknown_label (s : TweenState) (lbl : String)
    (h : labelGet s.labels lbl = none) :
    gotoAndPlay s (Sum.inl lbl)
      = { state := { s with paused := false }, ret := none, ended := false,
          events := [], fired := [], writes := [] } ∧
    gotoAndStop s (Sum.inl lbl)
      = { state := { s with paused := true }, ret := none, ended := false,
          events := [], fired := [], writes := [] } := by
  constructor <;> simp [gotoAndPlay, gotoAndStop, goto, resolve, h]

/-- C9 witness: the claim at a fresh tween (no labels) and the label
"missing". -/
theorem c9_goto_unknown_label_witness :
    gotoAndPlay tweenC1 (Sum.inl "missing")
      = { state := { tweenC1 with paused := false }, ret := none,
          ended := false, events := [], fired := [], writes := [] } ∧
    gotoAndStop tweenC1 (Sum.inl "missing")
      = { state := { tweenC1 with paused := true }, ret := none,
          ended := false, events := [], fired := [], writes := [] } :=
  c9_goto_unknown_label tweenC1 "missing" rfl

/-- Reassigning `_paused` to its current value is the identity on the
tween list. -/
theorem updTween_paused_self (p : Bool) :
    ∀ (ts : List RegTween) (tid : ℕ) (t : RegTween),
      getTween ts tid = some t → t.paused = p →
      updTween ts tid (fun x => { x with paused := p }) = ts := by
  intro ts
  induction ts with
  | nil => intro tid t h; simp [getTween] at h
  | cons u rest ih =>
    intro tid t h hp
    simp only [getTween] at h
    simp only [updTween]
    split
    · next hid =>
      rw [if_pos hid] at h
      cases h
      cases u
      simp_all
    · next hid =>
      rw [if_neg hid] at h
      rw [ih tid t h hp]

/-- C10.  Setting a leaf tween's `paused` property to its current value
leaves the whole registry state unchanged: `tweenjs_count`s, the global
head/tail list, every tween's `_next`/`_prev` links, `_status` and
`_paused` are all exactly as before, because `_register` only acts on an
actual paused/unpaused transition. -/
theorem c10_paused_idempotent (g : GState) (tid : ℕ) (t : RegTween) (p : Bool)
    (hget : getTween g.tweens tid = some t) (hp : t.paused = p) :
    Tween.setPaused g tid p = g := by
  have hupd := updTween_paused_self p g.tweens tid t hget hp
  simp only [Tween.setPaused, Tween.register, hget]
  cases p <;> simp_all

/-- C10 witness: a one-tween registry; re-pausing the already-paused tween
changes nothing. -/
theorem c10_paused_idempotent_witness :
    Tween.setPaused
      { tweens := [{ id := 0, paused := true, status := -1, lastTick := 0,
                     next := none, prev := none, target := some 5 }],
        counts := [(5, 0)], head := none, tail := none, inTick := 0,
        inited := false } 0 true
    = { tweens := [{ id := 0, paused := true, status := -1, lastTick := 0,
                     next := none, prev := none, target := some 5 }],
        counts := [(5, 0)], head := none, tail := none, inTick := 0,
        inited := false } :=
  c10_paused_idempotent _ 0 _ true rfl rfl

/-- The `setPosition` tail fires no actions when `ignoreActions` is set. -/
theorem commitPosition_fired_ignore (s : TweenState) (t r p : ℚ) (e j : Bool) :
    (Tween.commitPosition s t r p e true j).fired = [] := rfl

/-- A leaf `setPosition` call with `ignoreActions = true` fires no
actions. -/
theorem setPosition_ignoreActions (s : TweenState) (raw : ℚ) (j : Bool) :
    (Tween.setPosition s raw true j).fired = [] := by
  simp only [Tween.setPosition]
  repeat' split
  all_goals rfl

/-- Every event of the timeline's property-update phase is an `update`
event: the children run with `ignoreActions = true`, so they contribute no
action events. -/
theorem timeline_update_trace (t : ℚ) (j : Bool) :
    ∀ (children : List TweenState) (i : ℕ),
      ∀ e ∈ (Timeline.updatePosition.go t j i children).2, e.isUpdate = true := by
  intro children
  induction children with
  | nil => intro i e he; simp [Timeline.updatePosition.go] at he
  | cons c rest ih =>
    intro i e he
    simp only [Timeline.updatePosition.go, setPosition_ignoreActions,
      List.map_nil, List.mem_append, List.mem_cons, List.mem_singleton,
      List.not_mem_nil, or_false, List.nil_append] at he
    rcases he with he | he
    · rw [he]; rfl
    · exact ih (i + 1) e he

/-- Every event of the timeline's action phase is an `action` event
(range-runner level). -/
theorem timeline_range_trace (sp ep : ℚ) (j inc : Bool) (t : ℚ) :
    ∀ (children : List TweenState) (i : ℕ) (pos : ℚ),
      ∀ e ∈ (Timeline.runActionsRange.go sp ep j inc t i pos children).2.1,
        e.isAction = true := by
  intro children
  induction children with
  | nil => intro i pos e he; simp [Timeline.runActionsRange.go] at he
  | cons c rest ih =>
    intro i pos e he
    simp only [Timeline.runActionsRange.go] at he
    split at he
    · simp only [List.mem_map] at he
      obtain ⟨a, _, ha⟩ := he
      rw [← ha]; rfl
    · simp only [List.mem_append, List.mem_map] at he
      rcases he with ⟨a, _, ha⟩ | he
      · rw [← ha]; rfl
      · exact ih (i + 1) pos e he

/-- If every range-runner event satisfies `P`, so does every event of one
loop body. -/
theorem runLoopBody_all {σ α : Type} (P : α → Prop)
    (range : σ → ℚ → ℚ → Bool → Bool → Bool × List α × σ)
    (hr : ∀ s a b j i, ∀ e ∈ (range s a b j i).2.1, P e)
    (d : ℚ) (rv bn : Bool) (l0 l1 : ℤ) (t0 t1 : ℚ) (dir jump : Bool)
    (s : σ) (loop : ℤ) (inc : Bool) :
    ∀ e ∈ (runLoopBody d rv bn range l0 l1 t0 t1 dir jump s loop inc).2.1,
      P e := by
  intro e he
  simp only [runLoopBody] at he
  repeat' split at he
  all_goals first | exact absurd he (List.not_mem_nil e) | exact hr _ _ _ _ _ e he

/-- If every range-runner event satisfies `P`, so does every event of the
loop traversal. -/
theorem runLoopIter_all {σ α : Type} (P : α → Prop)
    (range : σ → ℚ → ℚ → Bool → Bool → Bool × List α × σ)
    (hr : ∀ s a b j i, ∀ e ∈ (range s a b j i).2.1, P e)
    (d : ℚ) (rv bn : Bool) (l0 l1 : ℤ) (t0 t1 : ℚ) (dir jump : Bool) :
    ∀ (fuel : ℕ) (s : σ) (loop : ℤ) (inc : Bool),
      ∀ e ∈ (runLoopIter d rv bn range l0 l1 t0 t1 dir jump fuel s loop inc).2.1,
        P e := by
  intro fuel
  induction fuel with
  | zero => intro s loop inc e he; simp [runLoopIter] at he
  | succ n ih =>
    intro s loop inc e he
    simp only [runLoopIter] at he
    split at he
    · exact runLoopBody_all P range hr _ _ _ _ _ _ _ _ _ _ _ _ e he
    · split at he
      · simp only [List.mem_append] at he
        rcases he with he | he
        · exact runLoopBody_all P range hr _ _ _ _ _ _ _ _ _ _ _ _ e he
        · exact ih _ _ _ e he
      · exact runLoopBody_all P range hr _ _ _ _ _ _ _ _ _ _ _ _ e he

/-- If every range-runner event satisfies `P`, so does every event of
`_runActions`. -/
theorem runActionsCore_all {σ α : Type} (P : α → Prop)
    (range : σ → ℚ → ℚ → Bool → Bool → Bool × List α × σ)
    (hr : ∀ s a b j i, ∀ e ∈ (range s a b j i).2.1, P e)
    (d : ℚ) (lc : ℤ) (rv bn : Bool) (g : Bool) (s : σ) (sr er : ℚ)
    (jm inc : Bool) :
    ∀ e ∈ (runActionsCore d lc rv bn range g s sr er jm inc).2.1, P e := by
  intro e he
  simp only [runActionsCore] at he
  repeat' split at he
  all_goals
    first
    | exact absurd he (List.not_mem_nil e)
    | exact hr _ _ _ _ _ e he
    | exact runLoopIter_all P range hr _ _ _ _ _ _ _ _ _ _ _ _ _ e he

/-- Every event of the timeline's action phase is an `action` event. -/
theorem timeline_actions_trace (tl : TimelineState) (sr er : ℚ) (j inc : Bool) :
    ∀ e ∈ (Timeline.runActions tl sr er j inc).2.1, e.isAction = true := by
  have hr : ∀ (s : TimelineState) (a b : ℚ) (jj ii : Bool),
      ∀ e ∈ (Timeline.runActionsRange s a b jj ii).2.1, e.isAction = true := by
    intro s a b jj ii e he
    simp only [Timeline.runActionsRange] at he
    exact timeline_range_trace a b jj ii s.position s.children 0 s.position e he
  intro e he
  simp only [Timeline.runActions] at he
  exact runActionsCore_all (fun x => TLEv.isAction x = true) _
    (fun s a b jj ii => hr s a b jj ii) _ _ _ _ _ _ _ _ _ _ e he

/-- C5.  On every `setPosition`/`advance` of a `Timeline`, the whole trace
of observable child effects decomposes as all property updates first, then
all action firings: children are updated with `ignoreActions = true` inside
`_updatePosition`, and child `_runActions` only run afterwards in the
timeline's action pass. -/
theorem c5_composite_ordering (tl : TimelineState) (raw : ℚ) (ia j : Bool) :
    ∃ u v, (Timeline.setPosition tl raw ia j).trace = u ++ v ∧
      (∀ e ∈ u, e.isUpdate = true) ∧ (∀ e ∈ v, e.isAction = true) := by
  have hcommit : ∀ (tl' : TimelineState) (t r p : ℚ) (e ia' j' : Bool),
      ∃ u v, (Timeline.commitPosition tl' t r p e ia' j').trace = u ++ v ∧
        (∀ x ∈ u, x.isUpdate = true) ∧ (∀ x ∈ v, x.isAction = true) := by
    intro tl' t r p e ia' j'
    simp only [Timeline.commitPosition, Timeline.updatePosition]
    refine ⟨_, _, rfl, timeline_update_trace _ _ _ _, ?_⟩
    split
    · exact timeline_actions_trace _ _ _ _ _
    · simp
  simp only [Timeline.setPosition]
  repeat' split
  all_goals
    first
    | exact ⟨[], [], rfl, by simp, by simp⟩
    | exact hcommit _ _ _ _ _ _ _

/-- Composite timeline for the C5 witness: two children (the step tween of
C4 and the action tween of C3). -/
def timelineC5 : TimelineState :=
  { duration := 1000, loop := 0, reversed := false, bounce := false,
    position := 0, rawPosition := -1, paused := false,
    children := [tweenC4, tweenC3] }

/-- C5 witness: the decomposition at a concrete two-child timeline tick. -/
theorem c5_composite_ordering_witness :
    ∃ u v, (Timeline.setPosition timelineC5 1000 false false).trace = u ++ v ∧
      (∀ e ∈ u, e.isUpdate = true) ∧ (∀ e ∈ v, e.isAction = true) :=
  c5_composite_ordering timelineC5 1000 false false

/-- The range walk never fires an action after one whose callback moved the
position away from the captured value `t`: starting from a state at
position `t`, either the walk completes (`false`) with the position still
`t` and every fired callback position-preserving, or it aborts (`true`)
with the position-changing action as the *last* fired one. -/
theorem runRangeWalk_spec (t sp ep sP eP : ℚ) (inc : Bool) :
    ∀ (s : TweenState) (l : List TweenAction), s.position = t →
      (((runRangeWalk t sp ep sP eP inc s l).1 = false →
        (runRangeWalk t sp ep sP eP inc s l).2.2.position = t ∧
        ∀ a ∈ (runRangeWalk t sp ep sP eP inc s l).2.1,
          actionChanges t a = false) ∧
      ((runRangeWalk t sp ep sP eP inc s l).1 = true →
        ∃ pre a q, (runRangeWalk t sp ep sP eP inc s l).2.1 = pre ++ [a] ∧
          (∀ b ∈ pre, actionChanges t b = false) ∧
          a.eff = some q ∧ q ≠ t ∧
          (runRangeWalk t sp ep sP eP inc s l).2.2.position = q)) := by
  intro s l
  induction l generalizing s with
  | nil =>
    intro hpos
    constructor
    · intro _
      exact ⟨hpos, by intro a ha; simp [runRangeWalk] at ha⟩
    · intro hab; simp [runRangeWalk] at hab
  | cons a rest ih =>
    intro hpos
    by_cases hin : inRangeB sp ep sP eP inc a = true
    · by_cases hdrift : (applyEff s a).position ≠ t
      · have hres : runRangeWalk t sp ep sP eP inc s (a :: rest)
            = (true, [a], applyEff s a) := by
          simp [runRangeWalk, hin, if_pos hdrift]
        rw [hres]
        constructor
        · intro hfalse; simp at hfalse
        · intro _
          obtain ⟨q, hq⟩ : ∃ q, a.eff = some q := by
            cases heff : a.eff with
            | none => exact absurd (by simp [applyEff, heff, hpos]) hdrift
            | some q => exact ⟨q, rfl⟩
          refine ⟨[], a, (applyEff s a).position, by simp, by simp, ?_, hdrift, rfl⟩
          simp [applyEff, hq]
      · push_neg at hdrift
        have hres : runRangeWalk t sp ep sP eP inc s (a :: rest)
            = ((runRangeWalk t sp ep sP eP inc (applyEff s a) rest).1,
               a :: (runRangeWalk t sp ep sP eP inc (applyEff s a) rest).2.1,
               (runRangeWalk t sp ep sP eP inc (applyEff s a) rest).2.2) := by
          simp [runRangeWalk, hin, hdrift]
        have hach : actionChanges t a = false := by
          cases heff : a.eff with
          | none => simp [actionChanges, heff]
          | some q =>
            have : q = t := by simpa [applyEff, heff] using hdrift
            simp [actionChanges, heff, this]
        have hrec := ih (applyEff s a) hdrift
        rw [hres]
        constructor
        · intro hfalse
          refine ⟨(hrec.1 hfalse).1, ?_⟩
          intro b hb
          rcases List.mem_cons.mp hb with hb | hb
          · rw [hb]; exact hach
          · exact (hrec.1 hfalse).2 b hb
        · intro htrue
          obtain ⟨pre, a', q, hfired, hpre, heff', hq, hqpos⟩ := hrec.2 htrue
          refine ⟨a :: pre, a', q, by simp [hfired], ?_, heff', hq, hqpos⟩
          intro b hb
          rcases List.mem_cons.mp hb with hb | hb
          · rw [hb]; exact hach
          · exact hpre b hb
    · have hres : runRangeWalk t sp ep sP eP inc s (a :: rest)
          = runRangeWalk t sp ep sP eP inc s rest := by
        simp [runRangeWalk, hin]
      rw [hres]
      exact ih s hpos

/-- `Tween._runActionsRange`: drift-abort specification (range level). -/
theorem runActionsRange_spec (s : TweenState) (sp ep : ℚ) (j inc : Bool)
    (p0 : ℚ) (hpos : s.position = p0) :
    ((Tween.runActionsRange s sp ep j inc).1 = false →
      (Tween.runActionsRange s sp ep j inc).2.2.position = p0 ∧
      ∀ a ∈ (Tween.runActionsRange s sp ep j inc).2.1,
        actionChanges p0 a = false) ∧
    ((Tween.runActionsRange s sp ep j inc).1 = true →
      ∃ pre a q, (Tween.runActionsRange s sp ep j inc).2.1 = pre ++ [a] ∧
        (∀ b ∈ pre, actionChanges p0 b = false) ∧
        a.eff = some q ∧ q ≠ p0 ∧
        (Tween.runActionsRange s sp ep j inc).2.2.position = q) := by
  subst hpos
  simp only [Tween.runActionsRange]
  split <;> exact runRangeWalk_spec _ _ _ _ _ _ s _ rfl

/-- One `_runActions` loop body: drift-abort specification. -/
theorem runLoopBody_spec (d : ℚ) (rv bn : Bool) (l0 l1 : ℤ) (t0 t1 : ℚ)
    (dir jm : Bool) (st : TweenState) (loop : ℤ) (inc : Bool)
    (p0 : ℚ) (hpos : st.position = p0) :
    ((runLoopBody d rv bn (fun st a b j i => Tween.runActionsRange st a b j i)
        l0 l1 t0 t1 dir jm st loop inc).1 = false →
      (runLoopBody d rv bn (fun st a b j i => Tween.runActionsRange st a b j i)
        l0 l1 t0 t1 dir jm st loop inc).2.2.position = p0 ∧
      ∀ a ∈ (runLoopBody d rv bn (fun st a b j i => Tween.runActionsRange st a b j i)
        l0 l1 t0 t1 dir jm st loop inc).2.1, actionChanges p0 a = false) ∧
    ((runLoopBody d rv bn (fun st a b j i => Tween.runActionsRange st a b j i)
        l0 l1 t0 t1 dir jm st loop inc).1 = true →
      ∃ pre a q, (runLoopBody d rv bn (fun st a b j i => Tween.runActionsRange st a b j i)
          l0 l1 t0 t1 dir jm st loop inc).2.1 = pre ++ [a] ∧
        (∀ b ∈ pre, actionChanges p0 b = false) ∧
        a.eff = some q ∧ q ≠ p0 ∧
        (runLoopBody d rv bn (fun st a b j i => Tween.runActionsRange st a b j i)
          l0 l1 t0 t1 dir jm st loop inc).2.2.position = q) := by
  simp only [runLoopBody]
  repeat' split
  all_goals
    first
    | exact runActionsRange_spec st _ _ _ _ p0 hpos
    | exact ⟨fun _ => ⟨hpos, by intro a ha; exact absurd ha (List.not_mem_nil a)⟩,
        fun h => by simp at h⟩

/-- The `_runActions` loop traversal: drift-abort specification.  Starting
from a state at position `p0`, either the whole traversal completes
(`false`) with the position still `p0` and every fired callback
position-preserving, or it aborts (`true`) and the position-changing action
is the *last* fired one of the entire call — no later action of that range
and no later bounce/loop iteration fires anything. -/
theorem runLoopIter_spec (d : ℚ) (rv bn : Bool) (l0 l1 : ℤ) (t0 t1 : ℚ)
    (dir jm : Bool) (p0 : ℚ) :
    ∀ (fuel : ℕ) (st : TweenState) (loop : ℤ) (inc : Bool),
      st.position = p0 →
      (((runLoopIter d rv bn (fun st a b j i => Tween.runActionsRange st a b j i)
          l0 l1 t0 t1 dir jm fuel st loop inc).1 = false →
        (runLoopIter d rv bn (fun st a b j i => Tween.runActionsRange st a b j i)
          l0 l1 t0 t1 dir jm fuel st loop inc).2.2.position = p0 ∧
        ∀ a ∈ (runLoopIter d rv bn (fun st a b j i => Tween.runActionsRange st a b j i)
          l0 l1 t0 t1 dir jm fuel st loop inc).2.1, actionChanges p0 a = false) ∧
      ((runLoopIter d rv bn (fun st a b j i => Tween.runActionsRange st a b j i)
          l0 l1 t0 t1 dir jm fuel st loop inc).1 = true →
        ∃ pre a q, (runLoopIter d rv bn (fun st a b j i => Tween.runActionsRange st a b j i)
            l0 l1 t0 t1 dir jm fuel st loop inc).2.1 = pre ++ [a] ∧
          (∀ b ∈ pre, actionChanges p0 b = false) ∧
          a.eff = some q ∧ q ≠ p0 ∧
          (runLoopIter d rv bn (fun st a b j i => Tween.runActionsRange st a b j i)
            l0 l1 t0 t1 dir jm fuel st loop inc).2.2.position = q)) := by
  intro fuel
  induction fuel with
  | zero =>
    intro st loop inc hpos
    refine ⟨fun _ => ⟨hpos, ?_⟩, fun h => by simp [runLoopIter] at h⟩
    intro a ha; simp [runLoopIter] at ha
  | succ n ih =>
    intro st loop inc hpos
    have hbody := runLoopBody_spec d rv bn l0 l1 t0 t1 dir jm st loop inc p0 hpos
    simp only [runLoopIter]
    split
    · next habort =>
      obtain ⟨pre, a, q, hf, hp, he, hq, hqp⟩ := hbody.2 habort
      exact ⟨fun h => by simp at h, fun _ => ⟨pre, a, q, hf, hp, he, hq, hqp⟩⟩
    · next hok =>
      have hok' : (runLoopBody d rv bn
          (fun st a b j i => Tween.runActionsRange st a b j i)
          l0 l1 t0 t1 dir jm st loop inc).1 = false := by
        revert hok; cases (runLoopBody d rv bn
          (fun st a b j i => Tween.runActionsRange st a b j i)
          l0 l1 t0 t1 dir jm st loop inc).1 <;> simp
      obtain ⟨hbpos, hbfired⟩ := hbody.1 hok'
      split
      · have hrec := ih _ (if dir = true then loop + 1 else loop - 1) false hbpos
        constructor
        · intro hfalse
          simp only at hfalse
          obtain ⟨hrpos, hrfired⟩ := hrec.1 hfalse
          refine ⟨hrpos, ?_⟩
          intro a ha
          rcases List.mem_append.mp ha with ha | ha
          · exact hbfired a ha
          · exact hrfired a ha
        · intro htrue
          simp only at htrue
          obtain ⟨pre, a, q, hf, hp, he, hq, hqp⟩ := hrec.2 htrue
          refine ⟨(runLoopBody d rv bn
              (fun st a b j i => Tween.runActionsRange st a b j i)
              l0 l1 t0 t1 dir jm st loop inc).2.1 ++ pre, a, q, ?_, ?_, he, hq, hqp⟩
          · simp [hf]
          · intro b hb
            rcases List.mem_append.mp hb with hb | hb
            · exact hbfired b hb
            · exact hp b hb
      · exact ⟨fun _ => ⟨hbpos, hbfired⟩, fun h => by simp at h⟩

set_option maxHeartbeats 2000000 in
/-- C6.  Drift abort in action execution: for every `Tween._runActions`
call, either it returns without abort (`false`) and every fired callback
left the position at its pre-call value, or it aborts (`true`) and the
action whose callback moved the position is the *last* action fired in the
entire call — no later action of its `_runActionsRange` walk fires, and no
later bounce/loop iteration fires anything.  The same dichotomy holds for
a single `_runActionsRange` walk. -/
theorem c6_drift_abort (s : TweenState) (sr er : ℚ) (j inc : Bool) :
    (((Tween.runActions s sr er j inc).1 = false →
      (Tween.runActions s sr er j inc).2.2.position = s.position ∧
      ∀ a ∈ (Tween.runActions s sr er j inc).2.1,
        actionChanges s.position a = false) ∧
    ((Tween.runActions s sr er j inc).1 = true →
      ∃ pre a q, (Tween.runActions s sr er j inc).2.1 = pre ++ [a] ∧
        (∀ b ∈ pre, actionChanges s.position b = false) ∧
        a.eff = some q ∧ q ≠ s.position ∧
        (Tween.runActions s sr er j inc).2.2.position = q)) ∧
    ∀ (sp ep : ℚ),
      ((Tween.runActionsRange s sp ep j inc).1 = false →
        (Tween.runActionsRange s sp ep j inc).2.2.position = s.position ∧
        ∀ a ∈ (Tween.runActionsRange s sp ep j inc).2.1,
          actionChanges s.position a = false) ∧
      ((Tween.runActionsRange s sp ep j inc).1 = true →
        ∃ pre a q, (Tween.runActionsRange s sp ep j inc).2.1 = pre ++ [a] ∧
          (∀ b ∈ pre, actionChanges s.position b = false) ∧
          a.eff = some q ∧ q ≠ s.position ∧
          (Tween.runActionsRange s sp ep j inc).2.2.position = q) := by
  constructor
  · simp only [Tween.runActions, runActionsCore]
    repeat' split
    all_goals
      first
      | exact ⟨fun _ => ⟨rfl, fun a ha => absurd ha (List.not_mem_nil a)⟩,
          fun h => by simp at h⟩
      | exact runActionsRange_spec s _ _ _ _ s.position rfl
      | exact runLoopIter_spec _ _ _ _ _ _ _ _ _ s.position _ s _ _ rfl
  · intro sp ep
    exact runActionsRange_spec s sp ep j inc s.position rfl

/-- Leaf tween for the C6 witness: an action at `t = 500` whose callback
jumps the position to 99, followed by one at `t = 600`. -/
def tweenC6 : TweenState :=
  { tweenC1 with
    loop := 0
    position := 0
    rawPosition := 0
    actions := [{ id := 0, t := 500, eff := some 99 },
                { id := 1, t := 600, eff := none }] }

/-- C6 witness: the drift-abort dichotomy at a concrete call that traverses
a position-changing action. -/
theorem c6_drift_abort_witness :
    (((Tween.runActions tweenC6 0 1000 false false).1 = false →
      (Tween.runActions tweenC6 0 1000 false false).2.2.position
          = tweenC6.position ∧
      ∀ a ∈ (Tween.runActions tweenC6 0 1000 false false).2.1,
        actionChanges tweenC6.position a = false) ∧
    ((Tween.runActions tweenC6 0 1000 false false).1 = true →
      ∃ pre a q, (Tween.runActions tweenC6 0 1000 false false).2.1
          = pre ++ [a] ∧
        (∀ b ∈ pre, actionChanges tweenC6.position b = false) ∧
        a.eff = some q ∧ q ≠ tweenC6.position ∧
        (Tween.runActions tweenC6 0 1000 false false).2.2.position = q)) ∧
    ∀ (sp ep : ℚ),
      ((Tween.runActionsRange tweenC6 sp ep false false).1 = false →
        (Tween.runActionsRange tweenC6 sp ep false false).2.2.position
            = tweenC6.position ∧
        ∀ a ∈ (Tween.runActionsRange tweenC6 sp ep false false).2.1,
          actionChanges tweenC6.position a = false) ∧
      ((Tween.runActionsRange tweenC6 sp ep false false).1 = true →
        ∃ pre a q, (Tween.runActionsRange tweenC6 sp ep false false).2.1
            = pre ++ [a] ∧
          (∀ b ∈ pre, actionChanges tweenC6.position b = false) ∧
          a.eff = some q ∧ q ≠ tweenC6.position ∧
          (Tween.runActionsRange tweenC6 sp ep false false).2.2.position = q) :=
  c6_drift_abort tweenC6 0 1000 false false
